import Mathlib

/-!
Verification of the MegaMolBART data-preparation and decoding core.

Shallow embedding of:
- `nemo_chem/data/augment.py` (`MoleculeEnumeration`): `_smiles_augmeter_func`,
  `_check_seq_len`, `_pad_seqs`, `collate_fn`;
- `nemo_chem/models/megamolbart/megamolbart_model.py` (`MegaMolBARTModel`):
  the autoregressive `decode` loop, the post-loop token pruning in
  `sample_molecules`, and `calculate_character_accuracy`.

Token ids are modelled as integers (labels may carry the `-1` ignore
sentinel), masks as lists of naturals with 1 = active and 0 = inactive,
mirroring the integer tensors built by the Python code.
-/

namespace MegaMolBART

/-- Maximum sequence length over a batch: `max([len(ts) for ts in tokens])`.
For the empty batch Python raises; we return 0 (callers pass non-empty
batches). -/
def maxLen (seqs : List (List α)) : Nat :=
  seqs.foldr (fun s m => max s.length m) 0

/-- The pad length computed by `_pad_seqs`: the batch maximum, rounded up to
the next multiple of 8 when `pad_size_divisible_by_8` is set
(`int(math.ceil(pad_length/8) * 8)`). -/
def padLength (pad8 : Bool) (seqs : List (List ℤ)) : Nat :=
  let m := maxLen seqs
  if pad8 then ((m + 7) / 8) * 8 else m

/-- `MoleculeEnumeration._pad_seqs`: pad every sequence to the common pad
length with `pad_token`, and build the active mask
(`[1]*len(seq) + [0]*(pad_length - len(seq))`). -/
def pad_seqs (pad8 : Bool) (seqs : List (List ℤ)) (pad_token : ℤ) :
    List (List ℤ) × List (List ℕ) :=
  let L := padLength pad8 seqs
  (seqs.map (fun s => s ++ List.replicate (L - s.length) pad_token),
   seqs.map (fun s => List.replicate s.length 1 ++ List.replicate (L - s.length) 0))

/-- `MoleculeEnumeration._check_seq_len`: if the batch maximum length exceeds
`seq_length`, truncate every token sequence and every mask to the first
`seq_length` positions; otherwise return both unchanged. -/
def check_seq_len (seq_length : Nat) (tokens : List (List α)) (mask : List (List β)) :
    List (List α) × List (List β) :=
  let seq_len := maxLen tokens
  if seq_len > seq_length then
    (tokens.map (fun ts => ts.take seq_length), mask.map (fun ms => ms.take seq_length))
  else (tokens, mask)

/-- The tensor fields of the batch built by `MoleculeEnumeration.collate_fn`
(`target_smiles`, a list of strings, is independent of these and omitted). -/
structure CollateOutput where
  text_enc : List (List ℤ)
  enc_mask : List (List ℕ)
  text_dec : List (List ℤ)
  dec_mask : List (List ℕ)
  labels : List (List ℤ)
  loss_mask : List (List ℕ)

/-- `MoleculeEnumeration.collate_fn`, from the point where encoder and decoder
token-id lists are in hand (the output of `convert_tokens_to_ids` after
`_prepare_tokens`).  Mirrors the source:
label ids are `example + [eos_id]`, decoder inputs are `[bos_id] + example`,
each padded by `_pad_seqs`, and
`label_token_ids[~loss_mask.bool()] = label_pad` replaces label entries at
inactive positions with the ignore sentinel. -/
def collate_fn (pad8 : Bool) (pad_id bos_id eos_id label_pad : ℤ)
    (enc_token_ids dec_token_ids : List (List ℤ)) : CollateOutput :=
  let encP := pad_seqs pad8 enc_token_ids pad_id
  let label_ids := dec_token_ids.map (fun ex => ex ++ [eos_id])
  let dec_ids := dec_token_ids.map (fun ex => bos_id :: ex)
  let decP := pad_seqs pad8 dec_ids pad_id
  let labP := pad_seqs pad8 label_ids pad_id
  let labels := (labP.1.zip labP.2).map
    (fun p => (p.1.zip p.2).map (fun q => if q.2 = 0 then label_pad else q.1))
  { text_enc := encP.1
    enc_mask := encP.2
    text_dec := decP.1
    dec_mask := decP.2
    labels := labels
    loss_mask := labP.2 }

/-- First index of `a` in a list, mirroring Python `list.index` (meaningful
when `a` occurs; otherwise returns the length). -/
def firstIndexOf (a : ℤ) : List ℤ → ℕ
  | [] => 0
  | x :: r => if x = a then 0 else firstIndexOf a r + 1

/-- The post-loop pruning in `MegaMolBARTModel.sample_molecules`: if the eos
id occurs in the sequence, keep the prefix strictly before its first
occurrence (`predicted_tokens_[:idx]`); otherwise drop every pad id
(`[id for id in predicted_tokens_ if id != self.tokenizer.pad_id]`). -/
def prune_tokens (eos pad : ℤ) (s : List ℤ) : List ℤ :=
  if eos ∈ s then s.take (firstIndexOf eos s) else s.filter (fun id => id ≠ pad)

/-- Index of the first maximal element, scanning left to right: the running
best is replaced only by a strictly larger value. -/
def argmaxAux : List ℤ → ℕ → ℕ → ℤ → ℕ
  | [], _, bi, _ => bi
  | a :: r, i, bi, bv => if a > bv then argmaxAux r (i+1) i a else argmaxAux r (i+1) bi bv

/-- Argmax over a logit vector, as computed by `torch.max(..., dim=-1)`
(index of a maximal entry; we fix the first one). -/
def argmaxIdx : List ℤ → ℕ
  | [] => 0
  | a :: r => argmaxAux r 1 0 a

/-- The decoder mask recomputed at each step of `MegaMolBARTModel.decode`:
`dec_mask = predicted_tokens_dec != self.tokenizer.pad_id` (1 = active). -/
def recompute_dec_mask (pad_id : ℤ) (seqs : List (List ℤ)) : List (List ℕ) :=
  seqs.map (fun s => s.map (fun id => if id = pad_id then 0 else 1))

/-- One iteration of the generation loop in `MegaMolBARTModel.decode`.
The model is abstracted as a function from the current decoder sequences and
mask to per-item logits at the final position.  The source sets logits of
ids at or beyond `vocab_size` to negative infinity before the argmax
(`token_logits[:, :, self.tokenizer.vocab_size:] = -float('Inf')`), so the
selection is an argmax over the first `vocab_size` entries; `log_softmax` is
strictly monotone per position, so argmax of log-probabilities equals argmax
of logits.  The selected id at the last position is appended to each row. -/
def decodeStep (model : List (List ℤ) → List (List ℕ) → List (List ℤ))
    (vocab_size : ℕ) (pad_id : ℤ) (seqs : List (List ℤ)) : List (List ℤ) :=
  let dec_mask := recompute_dec_mask pad_id seqs
  let logits := model seqs dec_mask
  (seqs.zip logits).map (fun p => p.1 ++ [(argmaxIdx (p.2.take vocab_size) : ℤ)])

/-- The generation loop of `MegaMolBARTModel.decode`: every row starts as
`[bos_id]` and the loop body runs exactly `steps` times (the source uses
`num_tokens_to_generate`). -/
def decode_loop (model : List (List ℤ) → List (List ℕ) → List (List ℤ))
    (vocab_size : ℕ) (pad_id bos_id : ℤ) (batch : ℕ) : ℕ → List (List ℤ)
  | 0 => List.replicate batch [bos_id]
  | n + 1 => decodeStep model vocab_size pad_id (decode_loop model vocab_size pad_id bos_id batch n)

/-- Sum of a list of rationals (`tensor.sum()` over float entries). -/
def sumQ (l : List ℚ) : ℚ := l.foldr (· + ·) 0

/-- `MegaMolBARTModel.calculate_character_accuracy`: predicted tokens are the
position-wise argmax of the logits, `correct_tokens = torch.eq(labels,
predicted_tokens) * loss_mask`, and the result is
`correct_tokens.sum() / loss_mask.sum()`.  Aligned tensors are modelled by
zipping rows and positions. -/
def calculate_character_accuracy (token_logits : List (List (List ℤ)))
    (loss_mask : List (List ℚ)) (labels : List (List ℤ)) : ℚ :=
  sumQ ((labels.zip ((token_logits.map (fun row =>
      row.map (fun v => (argmaxIdx v : ℤ)))).zip loss_mask)).map (fun r =>
    sumQ ((r.1.zip (r.2.1.zip r.2.2)).map
      (fun q => (if q.1 = q.2.1 then (1:ℚ) else 0) * q.2.2))))
    / sumQ (loss_mask.map sumQ)

/-- Character accuracy as the specification words it: the number of positions
where the argmax of the logits equals the label id and the loss mask is 1,
divided by the total number of loss-mask-1 positions. -/
def char_accuracy_spec (token_logits : List (List (List ℤ)))
    (loss_mask : List (List ℚ)) (labels : List (List ℤ)) : ℚ :=
  ((((labels.zip ((token_logits.map (fun row =>
      row.map (fun v => (argmaxIdx v : ℤ)))).zip loss_mask)).map (fun r =>
    ((r.1.zip (r.2.1.zip r.2.2)).filter
      (fun q => q.1 = q.2.1 ∧ q.2.2 = 1)).length)).sum : ℕ) : ℚ)
    / (((loss_mask.map (fun r => (r.filter (fun x => x = 1)).length)).sum : ℕ) : ℚ)

/-- The external molecular-structure library (RDKit) as used by
`_smiles_augmeter_func`: parsing, canonical and non-canonical rendering, and
atom renumbering.  Non-canonical rendering of a renumbered structure may
fail (the `RuntimeError` caught in the source); the renderings used outside
the `try` block are total. -/
structure Codec (Mol : Type) where
  parse : String → Option Mol
  renderCanonical : Mol → String
  renderNonCanonical : Mol → Option String
  renumber : Mol → List ℕ → Mol

/-- `MoleculeEnumeration._smiles_augmeter_func`.  `atom_order` is the random
permutation drawn by `np.random.shuffle`, passed explicitly (injected
randomness).  `none` models a fault the source does not handle: parse
failure (the Python code would fault on `mol.GetNumAtoms`), a render failure
outside the `try` block, or a failed emptiness assertion. -/
def smiles_augmeter_func {Mol : Type} (codec : Codec Mol) (canonicalize_input : Bool)
    (atom_order : List ℕ) (smiles : String) (augment_data : Bool) :
    Option (String × String) :=
  match codec.parse smiles with
  | none => none
  | some mol =>
    let canon_smiles := if canonicalize_input then codec.renderCanonical mol else smiles
    let aug? : Option String :=
      if augment_data then
        some (match codec.renderNonCanonical (codec.renumber mol atom_order) with
              | some s => s
              | none => if canonicalize_input then canon_smiles
                        else codec.renderCanonical mol)
      else codec.renderNonCanonical mol
    match aug? with
    | none => none
    | some aug_smiles =>
      if 0 < aug_smiles.length ∧ 0 < canon_smiles.length
      then some (aug_smiles, canon_smiles) else none

/-- A model whose logits always put the maximum on id 0; with `pad_id = 0`
the generation loop appends the pad id. -/
def padEmittingModel : List (List ℤ) → List (List ℕ) → List (List ℤ) :=
  fun _ _ => [[10, 0, 0]]

/-- A model whose logits always put the maximum on id 1 (never the pad id 0). -/
def benignModel : List (List ℤ) → List (List ℕ) → List (List ℤ) :=
  fun _ _ => [[0, 10, 0]]

/-- A model whose logits always put the maximum on id 2 (the eos id in the
C10 witness instantiation). -/
def eosEmittingModel : List (List ℤ) → List (List ℕ) → List (List ℤ) :=
  fun _ _ => [[0, 0, 10]]

/-- A trivial structure codec over a one-point structure type whose
non-canonical rendering always fails: exercises the fallback path of
`_smiles_augmeter_func`. -/
def failingRenderCodec : Codec Unit where
  parse := fun _ => some ()
  renderCanonical := fun _ => "C"
  renderNonCanonical := fun _ => none
  renumber := fun m _ => m

/-! ### Basic facts about the padding computation -/

theorem length_le_maxLen {s : List α} {seqs : List (List α)} (h : s ∈ seqs) :
    s.length ≤ maxLen seqs := by
  induction seqs with
  | nil => cases h
  | cons t ts ih =>
    rcases List.mem_cons.mp h with rfl | h
    · exact le_max_left _ _
    · exact le_trans (ih h) (le_max_right _ _)

theorem maxLen_le_padLength (pad8 : Bool) (seqs : List (List ℤ)) :
    maxLen seqs ≤ padLength pad8 seqs := by
  cases pad8 with
  | false => simp [padLength]
  | true =>
    simp only [padLength, if_true]
    have h := Nat.div_add_mod (maxLen seqs + 7) 8
    have hm : (maxLen seqs + 7) % 8 < 8 := Nat.mod_lt _ (by norm_num)
    omega

theorem length_le_padLength {s : List ℤ} {seqs : List (List ℤ)} (pad8 : Bool)
    (h : s ∈ seqs) : s.length ≤ padLength pad8 seqs :=
  le_trans (length_le_maxLen h) (maxLen_le_padLength pad8 seqs)

theorem dvd_padLength (seqs : List (List ℤ)) : 8 ∣ padLength true seqs := by
  simp only [padLength, if_true]
  exact Dvd.intro_left _ rfl

/-! ### Shapes of the collate output -/

theorem getD_append_lt {α : Type} (a b : List α) (d : α) (j : ℕ) (h : j < a.length) :
    (a ++ b).getD j d = a.getD j d := by
  simp [List.getD_eq_getElem?_getD, List.getElem?_append_left h]

theorem getD_append_ge {α : Type} (a b : List α) (d : α) (j : ℕ) (h : a.length ≤ j) :
    (a ++ b).getD j d = b.getD (j - a.length) d := by
  simp [List.getD_eq_getElem?_getD, List.getElem?_append_right h]

theorem getD_replicate_eq {α : Type} (x d : α) (n j : ℕ) :
    (List.replicate n x).getD j d = if j < n then x else d := by
  rcases lt_or_ge j n with h | h
  · rw [List.getD_eq_getElem _ _ (by simpa using h)]
    simp [List.getElem_replicate, h]
  · rw [List.getD_eq_default _ _ (by simpa using h)]
    simp [Nat.not_lt.mpr h]

theorem collate_text_enc_eq (pad8 : Bool) (pad bos eos lp : ℤ)
    (enc dec : List (List ℤ)) :
    (collate_fn pad8 pad bos eos lp enc dec).text_enc
      = enc.map (fun s => s ++ List.replicate (padLength pad8 enc - s.length) pad) := rfl

theorem collate_enc_mask_eq (pad8 : Bool) (pad bos eos lp : ℤ)
    (enc dec : List (List ℤ)) :
    (collate_fn pad8 pad bos eos lp enc dec).enc_mask
      = enc.map (fun s =>
          List.replicate s.length 1 ++ List.replicate (padLength pad8 enc - s.length) 0) := rfl

theorem collate_text_dec_eq (pad8 : Bool) (pad bos eos lp : ℤ)
    (enc dec : List (List ℤ)) :
    (collate_fn pad8 pad bos eos lp enc dec).text_dec
      = (dec.map (fun ex => bos :: ex)).map (fun s =>
          s ++ List.replicate (padLength pad8 (dec.map (fun ex => bos :: ex)) - s.length) pad) := rfl

theorem collate_loss_mask_eq (pad8 : Bool) (pad bos eos lp : ℤ)
    (enc dec : List (List ℤ)) :
    (collate_fn pad8 pad bos eos lp enc dec).loss_mask
      = (dec.map (fun ex => ex ++ [eos])).map (fun s =>
          List.replicate s.length 1 ++
            List.replicate (padLength pad8 (dec.map (fun ex => ex ++ [eos])) - s.length) 0) := rfl

theorem zip_replicate_one_map (lp : ℤ) (s : List ℤ) :
    (s.zip (List.replicate s.length (1:ℕ))).map
        (fun q => if q.2 = 0 then lp else q.1) = s := by
  induction s with
  | nil => rfl
  | cons x r ih => simpa [List.replicate_succ] using ih

/-- The masked assignment `label_token_ids[~loss_mask.bool()] = label_pad`
acting on one padded label row: real positions keep their id, padded
positions become the ignore sentinel. -/
theorem label_row_eq (lp pad : ℤ) (s : List ℤ) (L : ℕ) :
    ((s ++ List.replicate (L - s.length) pad).zip
        (List.replicate s.length 1 ++ List.replicate (L - s.length) 0)).map
      (fun q => if q.2 = 0 then lp else q.1)
    = s ++ List.replicate (L - s.length) lp := by
  rw [List.zip_append (by simp), List.map_append]
  rw [zip_replicate_one_map, List.zip_replicate, min_self, List.map_replicate]
  simp

/-- The `labels` tensor of `collate_fn`, row by row: each row is the label-id
sequence (decoder ids plus eos) extended with the ignore sentinel up to the
label pad length. -/
theorem collate_labels_eq (pad8 : Bool) (pad bos eos lp : ℤ)
    (enc dec : List (List ℤ)) :
    (collate_fn pad8 pad bos eos lp enc dec).labels
      = (dec.map (fun ex => ex ++ [eos])).map (fun s =>
          s ++ List.replicate
            (padLength pad8 (dec.map (fun ex => ex ++ [eos])) - s.length) lp) := by
  show (((dec.map (fun ex => ex ++ [eos])).map _).zip
          ((dec.map (fun ex => ex ++ [eos])).map _)).map _ = _
  rw [List.zip_map', List.map_map]
  apply List.map_congr_left
  intro s _
  exact label_row_eq lp pad s _

/-- Elementwise relation between one loss-mask row and the matching labels
row (2 is an impossible mask default marking out-of-range reads). -/
theorem label_row_spec (lp : ℤ) (s : List ℤ) (L j : ℕ) (h : s.length ≤ L) :
    ((List.replicate s.length (1:ℕ) ++ List.replicate (L - s.length) 0).getD j 2 = 0 →
      (s ++ List.replicate (L - s.length) lp).getD j 0 = lp) ∧
    ((List.replicate s.length (1:ℕ) ++ List.replicate (L - s.length) 0).getD j 2 = 1 →
      (s ++ List.replicate (L - s.length) lp).getD j 0 = s.getD j 0) := by
  rcases lt_or_ge j s.length with hj | hj
  · rw [getD_append_lt _ _ _ _ (by simpa using hj),
        getD_append_lt _ _ _ _ (by simpa using hj), getD_replicate_eq]
    simp [hj]
  · rw [getD_append_ge _ _ _ _ (by simpa using hj),
        getD_append_ge _ _ _ _ (by simpa using hj),
        getD_replicate_eq, getD_replicate_eq]
    rcases lt_or_ge j L with hL | hL
    · have : j - s.length < L - s.length := by omega
      simp [this]
    · have : ¬ (j - s.length < L - s.length) := by omega
      simp [this]

theorem maxLen_cons (s : List α) (rest : List (List α)) :
    maxLen (s :: rest) = max s.length (maxLen rest) := rfl

/-! ### Claim theorems -/

/-- C1: In the batch produced by collate_fn, for every row and every
position, if loss_mask is 0 at that position then the label id equals the
configured label_pad sentinel, and if loss_mask is 1 it equals the
corresponding decoder target id (the row's decoder token ids followed by the
end-of-sequence id).  Out-of-range reads use the impossible mask default 2,
so both implications are vacuous there. -/
theorem claim_C1_labels_align (pad8 : Bool) (pad bos eos lp : ℤ)
    (enc dec : List (List ℤ)) (i j : ℕ) :
    (((collate_fn pad8 pad bos eos lp enc dec).loss_mask.getD i []).getD j 2 = 0 →
      ((collate_fn pad8 pad bos eos lp enc dec).labels.getD i []).getD j 0 = lp) ∧
    (((collate_fn pad8 pad bos eos lp enc dec).loss_mask.getD i []).getD j 2 = 1 →
      ((collate_fn pad8 pad bos eos lp enc dec).labels.getD i []).getD j 0
        = (dec.getD i [] ++ [eos]).getD j 0) := by
  rw [collate_labels_eq, collate_loss_mask_eq]
  by_cases hi : i < dec.length
  · have hmask : ((dec.map (fun ex => ex ++ [eos])).map (fun s =>
        List.replicate s.length (1:ℕ) ++
          List.replicate (padLength pad8 (dec.map (fun ex => ex ++ [eos])) - s.length) 0)).getD i []
        = List.replicate (dec[i] ++ [eos]).length (1:ℕ) ++
            List.replicate (padLength pad8 (dec.map (fun ex => ex ++ [eos]))
              - (dec[i] ++ [eos]).length) 0 := by
      rw [List.getD_eq_getElem _ _ (by simpa using hi)]
      simp
    have hlab : ((dec.map (fun ex => ex ++ [eos])).map (fun s =>
        s ++ List.replicate (padLength pad8 (dec.map (fun ex => ex ++ [eos])) - s.length) lp)).getD i []
        = (dec[i] ++ [eos]) ++
            List.replicate (padLength pad8 (dec.map (fun ex => ex ++ [eos]))
              - (dec[i] ++ [eos]).length) lp := by
      rw [List.getD_eq_getElem _ _ (by simpa using hi)]
      simp
    rw [hmask, hlab, List.getD_eq_getElem _ _ hi]
    exact label_row_spec lp (dec[i] ++ [eos]) _ j
      (length_le_padLength pad8 (List.mem_map_of_mem _ (dec.getElem_mem hi)))
  · have hge : dec.length ≤ i := Nat.le_of_not_lt hi
    have hmask : ((dec.map (fun ex => ex ++ [eos])).map (fun s =>
        List.replicate s.length (1:ℕ) ++
          List.replicate (padLength pad8 (dec.map (fun ex => ex ++ [eos])) - s.length) 0)).getD i []
        = [] := List.getD_eq_default _ _ (by simpa using hge)
    rw [hmask]
    constructor
    · intro h; simp at h
    · intro h; simp at h

/-- Witness for C1 at a concrete batch: with decoder ids `[[5]]`, eos 2 and
pad-to-8, position 1 is active and carries the eos label while position 5 is
padding and carries the ignore sentinel. -/
theorem claim_C1_labels_align_witness :
    ((collate_fn true 0 1 2 (-1) [[7]] [[5]]).labels.getD 0 []).getD 1 0
        = (([5] : List ℤ) ++ [2]).getD 1 0 ∧
    ((collate_fn true 0 1 2 (-1) [[7]] [[5]]).labels.getD 0 []).getD 5 0 = -1 :=
  ⟨by
    have h := (claim_C1_labels_align true 0 1 2 (-1) [[7]] [[5]] 0 1).2 (by decide)
    simpa using h,
   by
    have h := (claim_C1_labels_align true 0 1 2 (-1) [[7]] [[5]] 0 5).1 (by decide)
    simpa using h⟩

/-- C2: For every non-empty batch of token sequences and masks,
`_check_seq_len` truncates only when the maximum sequence length in the
batch exceeds seq_length, and in that case every sequence and its mask is
truncated to the first seq_length positions; otherwise everything is
returned unchanged. -/
theorem claim_C2_check_seq_len {α β : Type} (cap : ℕ) (tokens : List (List α))
    (masks : List (List β)) (_hne : tokens ≠ []) :
    (maxLen tokens > cap →
      check_seq_len cap tokens masks
        = (tokens.map (fun ts => ts.take cap), masks.map (fun ms => ms.take cap))) ∧
    (maxLen tokens ≤ cap → check_seq_len cap tokens masks = (tokens, masks)) := by
  constructor
  · intro hgt
    simp [check_seq_len, hgt]
  · intro hle
    simp [check_seq_len, Nat.not_lt.mpr hle]

/-- Witness for C2: a batch whose longest sequence has 3 tokens is truncated
under cap 2 (masks included) and untouched under cap 5. -/
theorem claim_C2_check_seq_len_witness :
    check_seq_len 2 ([[1,2,3]] : List (List ℕ)) ([[9,9,9]] : List (List ℕ))
        = ([[1,2]], [[9,9]]) ∧
    check_seq_len 5 ([[1,2,3]] : List (List ℕ)) ([[9,9,9]] : List (List ℕ))
        = ([[1,2,3]], [[9,9,9]]) := by
  constructor
  · have h := (claim_C2_check_seq_len 2 [[1,2,3]] [[9,9,9]] (by decide)).1 (by decide)
    simpa using h
  · have h := (claim_C2_check_seq_len 5 [[1,2,3]] [[9,9,9]] (by decide)).2 (by decide)
    simpa using h

/-- C5: collate_fn produces encoder token ids and encoder mask of equal
width; when pad_size_divisible_by_8 is true that width is a multiple of 8;
and in every row the number of pad-token positions equals the width minus
that row's original token count (the rows themselves carry no pad id, as ids
converted from vocabulary tokens never do). -/
theorem claim_C5_enc_padding (pad8 : Bool) (pad bos eos lp : ℤ)
    (enc dec : List (List ℤ)) (hpad : ∀ r ∈ enc, pad ∉ r) :
    (∀ r ∈ (collate_fn pad8 pad bos eos lp enc dec).text_enc,
        r.length = padLength pad8 enc) ∧
    (∀ r ∈ (collate_fn pad8 pad bos eos lp enc dec).enc_mask,
        r.length = padLength pad8 enc) ∧
    (pad8 = true → 8 ∣ padLength pad8 enc) ∧
    (∀ i, i < enc.length →
      ((collate_fn pad8 pad bos eos lp enc dec).text_enc.getD i []).count pad
        = padLength pad8 enc - (enc.getD i []).length) := by
  rw [collate_text_enc_eq, collate_enc_mask_eq]
  refine ⟨?_, ?_, ?_, ?_⟩
  · intro r hr
    rcases List.mem_map.mp hr with ⟨s, hs, rfl⟩
    have hle := length_le_padLength pad8 hs
    simp only [List.length_append, List.length_replicate]
    omega
  · intro r hr
    rcases List.mem_map.mp hr with ⟨s, hs, rfl⟩
    have hle := length_le_padLength pad8 hs
    simp only [List.length_append, List.length_replicate]
    omega
  · intro h8
    subst h8
    exact dvd_padLength enc
  · intro i hi
    rw [List.getD_eq_getElem _ _ (by simpa using hi), List.getElem_map,
        List.getD_eq_getElem _ _ hi]
    rw [List.count_append, List.count_replicate]
    have hmem : enc[i] ∈ enc := enc.getElem_mem hi
    simp [List.count_eq_zero_of_not_mem (hpad _ hmem)]

/-- Witness for C5 on a two-row batch with pad-to-8 enabled: both tensors are
8 wide, 8 is a multiple of 8, and the rows carry 7 and 6 pad tokens. -/
theorem claim_C5_enc_padding_witness :
    (∀ r ∈ (collate_fn true 0 1 2 (-1) [[5],[6,7]] [[5]]).text_enc,
        r.length = padLength true [[5],[6,7]]) ∧
    (∀ r ∈ (collate_fn true 0 1 2 (-1) [[5],[6,7]] [[5]]).enc_mask,
        r.length = padLength true [[5],[6,7]]) ∧
    (true = true → 8 ∣ padLength true [[5],[6,7]]) ∧
    (∀ i, i < ([[5],[6,7]] : List (List ℤ)).length →
      ((collate_fn true 0 1 2 (-1) [[5],[6,7]] [[5]]).text_enc.getD i []).count 0
        = padLength true [[5],[6,7]] - (([[5],[6,7]] : List (List ℤ)).getD i []).length) :=
  claim_C5_enc_padding true 0 1 2 (-1) [[5],[6,7]] [[5]] (by decide)

/-- C9: the decoder input tensor and the label tensor produced by collate_fn
have identical shape: same number of rows, the two padding computations
yield the same width (each row of both derives from the same decoder token
sequence extended by exactly one id), and row for row the padded lengths
coincide. -/
theorem claim_C9_dec_label_shape (pad8 : Bool) (pad bos eos lp : ℤ)
    (enc dec : List (List ℤ)) :
    (collate_fn pad8 pad bos eos lp enc dec).text_dec.length
      = (collate_fn pad8 pad bos eos lp enc dec).labels.length ∧
    padLength pad8 (dec.map (fun ex => bos :: ex))
      = padLength pad8 (dec.map (fun ex => ex ++ [eos])) ∧
    (∀ i, ((collate_fn pad8 pad bos eos lp enc dec).text_dec.getD i []).length
      = ((collate_fn pad8 pad bos eos lp enc dec).labels.getD i []).length) := by
  have hmax : maxLen (dec.map (fun ex => bos :: ex))
      = maxLen (dec.map (fun ex => ex ++ [eos])) := by
    induction dec with
    | nil => rfl
    | cons x xs ih => simp [maxLen_cons, ih]
  have hwidth : padLength pad8 (dec.map (fun ex => bos :: ex))
      = padLength pad8 (dec.map (fun ex => ex ++ [eos])) := by
    unfold padLength
    rw [hmax]
  refine ⟨?_, hwidth, ?_⟩
  · rw [collate_text_dec_eq, collate_labels_eq]
    simp
  · intro i
    rw [collate_text_dec_eq, collate_labels_eq]
    by_cases hi : i < dec.length
    · have hd : ((dec.map (fun ex => bos :: ex)).map (fun s =>
          s ++ List.replicate (padLength pad8 (dec.map (fun ex => bos :: ex)) - s.length) pad)).getD i []
          = (bos :: dec[i]) ++
              List.replicate (padLength pad8 (dec.map (fun ex => bos :: ex))
                - (bos :: dec[i]).length) pad := by
        rw [List.getD_eq_getElem _ _ (by simpa using hi)]
        simp
      have hl : ((dec.map (fun ex => ex ++ [eos])).map (fun s =>
          s ++ List.replicate (padLength pad8 (dec.map (fun ex => ex ++ [eos])) - s.length) lp)).getD i []
          = (dec[i] ++ [eos]) ++
              List.replicate (padLength pad8 (dec.map (fun ex => ex ++ [eos]))
                - (dec[i] ++ [eos]).length) lp := by
        rw [List.getD_eq_getElem _ _ (by simpa using hi)]
        simp
      rw [hd, hl]
      have h1 : (bos :: dec[i]).length ≤ padLength pad8 (dec.map (fun ex => bos :: ex)) :=
        length_le_padLength pad8 (List.mem_map_of_mem _ (dec.getElem_mem hi))
      have h2 : (dec[i] ++ [eos]).length ≤ padLength pad8 (dec.map (fun ex => ex ++ [eos])) :=
        length_le_padLength pad8 (List.mem_map_of_mem _ (dec.getElem_mem hi))
      simp only [List.length_append, List.length_replicate, List.length_cons,
        List.length_singleton] at h1 h2 ⊢
      omega
    · have hge : dec.length ≤ i := Nat.le_of_not_lt hi
      have hd : ((dec.map (fun ex => bos :: ex)).map (fun s =>
          s ++ List.replicate (padLength pad8 (dec.map (fun ex => bos :: ex)) - s.length) pad)).getD i []
          = [] := List.getD_eq_default _ _ (by simpa using hge)
      have hl : ((dec.map (fun ex => ex ++ [eos])).map (fun s =>
          s ++ List.replicate (padLength pad8 (dec.map (fun ex => ex ++ [eos])) - s.length) lp)).getD i []
          = [] := List.getD_eq_default _ _ (by simpa using hge)
      rw [hd, hl]

/-- Python's `s[:s.index(a)]` is exactly the longest prefix free of `a`. -/
theorem take_firstIndexOf (a : ℤ) (s : List ℤ) :
    s.take (firstIndexOf a s) = s.takeWhile (fun x => x ≠ a) := by
  induction s with
  | nil => rfl
  | cons x r ih =>
    by_cases hx : x = a
    · subst hx
      simp [firstIndexOf, List.takeWhile_cons]
    · simp [firstIndexOf, hx, List.take_succ_cons, List.takeWhile_cons, ih]

/-- C3: For every decoded token sequence, post-loop trimming behaves as
follows: if the end-of-sequence id occurs anywhere in the sequence, the
result is the prefix strictly before its first occurrence; otherwise the
result is the sequence with every occurrence of the pad id removed,
wherever it appears (not only trailing positions). -/
theorem claim_C3_prune_cases (eos pad : ℤ) (s : List ℤ) :
    (eos ∈ s → prune_tokens eos pad s = s.takeWhile (fun id => id ≠ eos)) ∧
    (eos ∉ s → prune_tokens eos pad s = s.filter (fun id => id ≠ pad)) := by
  constructor
  · intro h
    rw [prune_tokens, if_pos h, take_firstIndexOf]
  · intro h
    rw [prune_tokens, if_neg h]

/-- Witness for C3: with eos 2 and pad 0, `[1,0,2,3]` is cut strictly before
the first eos (keeping a mid-sequence pad), while `[1,0,3,0]` (no eos) loses
every pad, including the one in the middle. -/
theorem claim_C3_prune_cases_witness :
    prune_tokens 2 0 [1, 0, 2, 3] = [1, 0] ∧
    prune_tokens 2 0 [1, 0, 3, 0] = [1, 3] := by
  constructor
  · have h := (claim_C3_prune_cases 2 0 [1, 0, 2, 3]).1 (by decide)
    rw [h]
    decide
  · have h := (claim_C3_prune_cases 2 0 [1, 0, 3, 0]).2 (by decide)
    rw [h]
    decide

/-- C7 counterexample: trimming is not idempotent.  With pad 0 and eos 2,
the sequence `[0, 2]` trims to `[0]` (prefix before the first eos), and a
second trim removes the pad, yielding `[]`. -/
theorem claim_C7_counterexample :
    prune_tokens 2 0 (prune_tokens 2 0 [0, 2]) ≠ prune_tokens 2 0 [0, 2] := by
  decide

/-- C7 amended: trimming is idempotent on every sequence that carries no pad
id strictly before its first end-of-sequence id; in particular it is always
idempotent on sequences without an eos id, and on eos-terminated sequences
whose prefix is pad-free. -/
theorem claim_C7_prune_idempotent (eos pad : ℤ) (s : List ℤ)
    (h : eos ∈ s → pad ∉ s.takeWhile (fun id => id ≠ eos)) :
    prune_tokens eos pad (prune_tokens eos pad s) = prune_tokens eos pad s := by
  by_cases he : eos ∈ s
  · have hps : prune_tokens eos pad s = s.takeWhile (fun id => id ≠ eos) := by
      rw [prune_tokens, if_pos he, take_firstIndexOf]
    rw [hps]
    have hno_eos : eos ∉ s.takeWhile (fun id => id ≠ eos) := by
      intro hmem
      have := List.mem_takeWhile_imp hmem
      simp at this
    rw [prune_tokens, if_neg hno_eos]
    apply List.filter_eq_self.mpr
    intro x hx
    have hxp : x ≠ pad := fun hxe => (h he) (hxe ▸ hx)
    simpa using hxp
  · have hps : prune_tokens eos pad s = s.filter (fun id => id ≠ pad) := by
      rw [prune_tokens, if_neg he]
    rw [hps]
    have hq_eos : eos ∉ s.filter (fun id => id ≠ pad) :=
      fun hm => he (List.mem_of_mem_filter hm)
    rw [prune_tokens, if_neg hq_eos]
    apply List.filter_eq_self.mpr
    intro x hx
    exact (List.mem_filter.mp hx).2

/-- Witness for C7 amended: `[1, 2, 0]` has no pad before its first eos. -/
theorem claim_C7_prune_idempotent_witness :
    prune_tokens 2 0 (prune_tokens 2 0 [1, 2, 0]) = prune_tokens 2 0 [1, 2, 0] :=
  claim_C7_prune_idempotent 2 0 [1, 2, 0] (by decide)

/-- C6 counterexample: the decode loop can append the pad id, and the
recomputed decoder mask is then no longer all-active.  With pad id 0,
vocab size 3, bos id 1 and a model whose logits put the maximum on id 0,
one generation step already appends the pad id, and the mask recomputed at
the next step is `[[1, 0]]`, not all-active. -/
theorem claim_C6_counterexample :
    decode_loop padEmittingModel 3 0 1 1 1 = [[1, 0]] ∧
    recompute_dec_mask 0 (decode_loop padEmittingModel 3 0 1 1 1) = [[1, 0]] := by
  constructor <;> decide

/-- C6 amended: the decode loop appends only argmax-selected ids below the
vocabulary size; nothing prevents the pad id from being selected.  If the
model's argmax-selected token is never the pad id (and bos is not pad), then
no pad id is ever appended and the decoder mask recomputed at every step is
all-active. -/
theorem claim_C6_mask_active (model : List (List ℤ) → List (List ℕ) → List (List ℤ))
    (vs : ℕ) (pad bos : ℤ) (batch steps : ℕ) (hbos : bos ≠ pad)
    (hmodel : ∀ st mk, ∀ l ∈ model st mk, ((argmaxIdx (l.take vs) : ℤ)) ≠ pad) :
    recompute_dec_mask pad (decode_loop model vs pad bos batch steps)
      = (decode_loop model vs pad bos batch steps).map
          (fun s => List.replicate s.length 1) := by
  have hnopad : ∀ t, ∀ s ∈ decode_loop model vs pad bos batch t, pad ∉ s := by
    intro t
    induction t with
    | zero =>
      intro s hs
      rw [List.eq_of_mem_replicate hs]
      intro hmem
      rcases List.mem_singleton.mp hmem with rfl
      exact hbos rfl
    | succ n ih =>
      intro s hs
      simp only [decode_loop, decodeStep] at hs
      rcases List.mem_map.mp hs with ⟨p, hp, rfl⟩
      intro hmem
      rcases List.mem_append.mp hmem with hmem | hmem
      · exact ih _ (List.of_mem_zip hp).1 hmem
      · rcases List.mem_singleton.mp hmem with hpad
        exact hmodel _ _ _ (List.of_mem_zip hp).2 hpad.symm
  unfold recompute_dec_mask
  apply List.map_congr_left
  intro s hs
  have hns := hnopad steps s hs
  have hone : ∀ x ∈ s.map (fun id => if id = pad then (0:ℕ) else 1), x = 1 := by
    intro x hx
    rcases List.mem_map.mp hx with ⟨y, hy, rfl⟩
    rw [if_neg (fun hye : y = pad => hns (hye ▸ hy))]
  exact List.eq_replicate_iff.mpr ⟨by simp, hone⟩

/-- Witness for C6 amended: a model that always selects id 1 (with pad id 0,
bos id 1, vocab size 3); after two steps the recomputed mask is all-active. -/
theorem claim_C6_mask_active_witness :
    recompute_dec_mask 0 (decode_loop benignModel 3 0 1 1 2)
      = (decode_loop benignModel 3 0 1 1 2).map (fun s => List.replicate s.length 1) :=
  claim_C6_mask_active benignModel 3 0 1 1 2 (by decide)
    (by
      intro st mk l hl
      have hl0 : l = [0, 10, 0] := by simpa [benignModel] using hl
      subst hl0
      decide)

/-- Every row of the generation loop state starts with the bos id: rows are
initialised to `[bos]` and the loop only appends at the end. -/
theorem decode_loop_head (model : List (List ℤ) → List (List ℕ) → List (List ℤ))
    (vs : ℕ) (pad bos : ℤ) (batch steps : ℕ) :
    ∀ s ∈ decode_loop model vs pad bos batch steps, s.head? = some bos := by
  induction steps with
  | zero =>
    intro s hs
    rw [List.eq_of_mem_replicate hs]
    rfl
  | succ n ih =>
    intro s hs
    simp only [decode_loop, decodeStep] at hs
    rcases List.mem_map.mp hs with ⟨p, hp, rfl⟩
    rw [List.head?_append, ih _ (List.of_mem_zip hp).1]
    rfl

/-- Pruning a sequence whose head is bos (bos distinct from pad and eos)
keeps the head: the first eos, if any, is strictly later, and the pad filter
keeps bos. -/
theorem prune_head (eos pad bos : ℤ) (hbp : bos ≠ pad) (hbe : bos ≠ eos)
    (s : List ℤ) (hh : s.head? = some bos) :
    (prune_tokens eos pad s).head? = some bos := by
  cases s with
  | nil => simp at hh
  | cons x r =>
    have hx : x = bos := by simpa using hh
    by_cases he : eos ∈ x :: r
    · rw [prune_tokens, if_pos he]
      have hidx : firstIndexOf eos (x :: r) = firstIndexOf eos r + 1 := by
        rw [firstIndexOf, if_neg (fun hq : x = eos => hbe (hx.symm.trans hq))]
      rw [hidx, List.take_succ_cons]
      simp [hx]
    · rw [prune_tokens, if_neg he, List.filter_cons]
      simp [hx, hbp]

/-- C10: every pruned sequence contains no occurrence of the
end-of-sequence id, and every sequence produced by the decode loop begins
with the begin-of-sequence id, which pruning does not remove (the pruned
sequence is non-empty and still starts with bos). -/
theorem claim_C10_bos_eos_invariants (eos pad bos : ℤ)
    (hbp : bos ≠ pad) (hbe : bos ≠ eos) :
    (∀ s, eos ∉ prune_tokens eos pad s) ∧
    (∀ model vs batch steps, ∀ s ∈ decode_loop model vs pad bos batch steps,
       s.head? = some bos ∧ (prune_tokens eos pad s).head? = some bos) := by
  constructor
  · intro s hmem
    by_cases he : eos ∈ s
    · rw [prune_tokens, if_pos he, take_firstIndexOf] at hmem
      have := List.mem_takeWhile_imp hmem
      simp at this
    · rw [prune_tokens, if_neg he] at hmem
      exact he (List.mem_of_mem_filter hmem)
  · intro model vs batch steps s hs
    have hh := decode_loop_head model vs pad bos batch steps s hs
    exact ⟨hh, prune_head eos pad bos hbp hbe s hh⟩

/-- Witness for C10 with eos 2, pad 0, bos 1: no eos survives pruning of
`[1, 5, 2]`, and the sequence `[1, 2]` produced by one step of a model that
emits eos still starts with bos after pruning. -/
theorem claim_C10_bos_eos_invariants_witness :
    (2:ℤ) ∉ prune_tokens 2 0 [1, 5, 2] ∧
    (prune_tokens 2 0 [1, 2]).head? = some 1 :=
  ⟨(claim_C10_bos_eos_invariants 2 0 1 (by decide) (by decide)).1 [1, 5, 2],
   ((claim_C10_bos_eos_invariants 2 0 1 (by decide) (by decide)).2
      eosEmittingModel 3 1 1 [1, 2] (by decide)).2⟩

/-- C4: when augmentation is requested and rendering the reordered graph
fails, `_smiles_augmeter_func` falls back deterministically: the variant
equals the canonical target when canonicalize_input is true, and otherwise
equals the canonical rendering of the unmodified graph.  The embedding is a
pure function of the failure context, so the same failure always yields the
same fallback result. -/
theorem claim_C4_augment_fallback {Mol : Type} (codec : Codec Mol) (ci : Bool)
    (ord : List ℕ) (smiles : String) (mol : Mol)
    (hparse : codec.parse smiles = some mol)
    (hfail : codec.renderNonCanonical (codec.renumber mol ord) = none)
    (hc : 0 < (codec.renderCanonical mol).length)
    (hs : 0 < smiles.length) :
    smiles_augmeter_func codec ci ord smiles true
      = some
          ((if ci then (if ci then codec.renderCanonical mol else smiles)
            else codec.renderCanonical mol),
           (if ci then codec.renderCanonical mol else smiles)) := by
  unfold smiles_augmeter_func
  rw [hparse]
  simp only [hfail, if_true]
  cases ci with
  | true => simp [hc]
  | false => simp [hc, hs]

/-- Witness for C4: a one-point codec whose non-canonical rendering always
fails; with canonicalize_input the variant and the target are both the
canonical rendering. -/
theorem claim_C4_augment_fallback_witness :
    smiles_augmeter_func failingRenderCodec true [] "CCO" true = some ("C", "C") := by
  have h := claim_C4_augment_fallback failingRenderCodec true [] "CCO" ()
    rfl rfl (by decide) (by decide)
  simpa using h

theorem sumQ_cons (x : ℚ) (r : List ℚ) : sumQ (x :: r) = x + sumQ r := rfl

/-- The sum of a 0/1-valued float mask row is the number of its 1 entries. -/
theorem sumQ_binary_count (mr : List ℚ) (h : ∀ x ∈ mr, x = 0 ∨ x = 1) :
    sumQ mr = (((mr.filter (fun x => x = 1)).length : ℕ) : ℚ) := by
  induction mr with
  | nil => simp [sumQ]
  | cons x r ih =>
    have hr := ih (fun y hy => h y (List.mem_cons_of_mem _ hy))
    rcases h x (List.mem_cons_self x r) with rfl | rfl
    · simp [sumQ_cons, List.filter_cons, hr]
    · simp [sumQ_cons, List.filter_cons, hr]
      ring

/-- On one aligned row (as a zipped list of label, prediction and mask
entries), the masked correctness sum equals the count of positions that
match and are active (mask entries are 0 or 1). -/
theorem row_correct_count (z : List (ℤ × (ℤ × ℚ)))
    (h : ∀ q ∈ z, q.2.2 = 0 ∨ q.2.2 = 1) :
    sumQ (z.map (fun q => (if q.1 = q.2.1 then (1:ℚ) else 0) * q.2.2))
      = (((z.filter (fun q => q.1 = q.2.1 ∧ q.2.2 = 1)).length : ℕ) : ℚ) := by
  induction z with
  | nil => simp [sumQ]
  | cons q z ih =>
    have hrec := ih (fun y hy => h y (List.mem_cons_of_mem _ hy))
    simp only [List.map_cons, sumQ_cons, List.filter_cons]
    rcases h q (List.mem_cons_self q z) with h0 | h1
    · rw [h0, mul_zero, zero_add, hrec]
      simp
    · rw [h1, mul_one]
      by_cases hq : q.1 = q.2.1
      · rw [if_pos hq, hrec]
        norm_num [hq]
        ring
      · rw [if_neg hq, zero_add, hrec]
        simp [hq]

/-- Batch version of `row_correct_count`. -/
theorem batch_correct_count (labels pred : List (List ℤ)) (mask : List (List ℚ))
    (h : ∀ r ∈ mask, ∀ x ∈ r, x = 0 ∨ x = 1) :
    sumQ ((labels.zip (pred.zip mask)).map (fun r =>
        sumQ ((r.1.zip (r.2.1.zip r.2.2)).map
          (fun q => (if q.1 = q.2.1 then (1:ℚ) else 0) * q.2.2))))
      = ((((labels.zip (pred.zip mask)).map (fun r =>
          ((r.1.zip (r.2.1.zip r.2.2)).filter
            (fun q => q.1 = q.2.1 ∧ q.2.2 = 1)).length)).sum : ℕ) : ℚ) := by
  induction labels generalizing pred mask with
  | nil => simp [sumQ]
  | cons l ls ih =>
    cases pred with
    | nil => simp [sumQ]
    | cons p ps =>
      cases mask with
      | nil => simp [sumQ]
      | cons m ms =>
        have hrec := ih ps ms (fun r hr => h r (List.mem_cons_of_mem _ hr))
        have hm : ∀ q ∈ l.zip (p.zip m), q.2.2 = 0 ∨ q.2.2 = 1 := by
          intro q hq
          exact h m (List.mem_cons_self m ms) q.2.2
            (List.of_mem_zip (List.of_mem_zip hq).2).2
        simp only [List.zip_cons_cons, List.map_cons, sumQ_cons, List.sum_cons]
        rw [row_correct_count _ hm, hrec]
        push_cast
        ring

/-- The total of a 0/1-valued float mask is the number of its 1 entries. -/
theorem batch_mask_total (mask : List (List ℚ))
    (h : ∀ r ∈ mask, ∀ x ∈ r, x = 0 ∨ x = 1) :
    sumQ (mask.map sumQ)
      = (((mask.map (fun r => (r.filter (fun x => x = 1)).length)).sum : ℕ) : ℚ) := by
  induction mask with
  | nil => simp [sumQ]
  | cons r rs ih =>
    simp only [List.map_cons, sumQ_cons, List.sum_cons]
    rw [sumQ_binary_count r (h r (List.mem_cons_self r rs)),
        ih (fun y hy => h y (List.mem_cons_of_mem _ hy))]
    push_cast
    ring

/-- C8: character accuracy equals the number of positions where the
position-wise argmax of the logits equals the label id and the loss mask is
1, divided by the total number of loss-mask-1 positions; in particular, if
predictions match labels at every active position it equals 1.0, and
flipping one active-position prediction in a batch with 10 active positions
yields 0.9. -/
theorem claim_C8_char_accuracy :
    (∀ (token_logits : List (List (List ℤ))) (loss_mask : List (List ℚ))
        (labels : List (List ℤ)),
      (∀ r ∈ loss_mask, ∀ x ∈ r, x = 0 ∨ x = 1) →
      calculate_character_accuracy token_logits loss_mask labels
        = char_accuracy_spec token_logits loss_mask labels) ∧
    calculate_character_accuracy [[[0,5],[5,0]]] [[1,1]] [[1,0]] = 1 ∧
    calculate_character_accuracy
      [[[5,0],[5,0],[5,0],[5,0],[5,0],[5,0],[5,0],[5,0],[5,0],[5,0]]]
      [[1,1,1,1,1,1,1,1,1,1]]
      [[0,0,0,0,0,0,0,0,0,1]] = 9/10 := by
  refine ⟨?_, ?_, ?_⟩
  · intro tl lm lb h
    unfold calculate_character_accuracy char_accuracy_spec
    rw [batch_correct_count _ _ _ h, batch_mask_total _ h]
  · norm_num [calculate_character_accuracy, sumQ, argmaxIdx, argmaxAux]
  · norm_num [calculate_character_accuracy, sumQ, argmaxIdx, argmaxAux]

/-- Witness for C8: the tensor-level accuracy and the positional-count
formulation agree on a concrete batch with a 0/1 mask. -/
theorem claim_C8_char_accuracy_witness :
    calculate_character_accuracy [[[0,5],[5,0]]] [[1,0]] [[1,1]]
      = char_accuracy_spec [[[0,5],[5,0]]] [[1,0]] [[1,1]] :=
  claim_C8_char_accuracy.1 [[[0,5],[5,0]]] [[1,0]] [[1,1]] (by norm_num)

end MegaMolBART
